import Mathlib

/-!
Verification of the cedrus policy-decision service against its specification.

The Rust sources are shallowly embedded: Rust HashMap / DashMap values become
association lists (or, for the schema namespace map, functions to Option),
machine integers become Int/Nat, fallible code returns Option / Except, and a
`.unwrap()` panic is modelled as `none`.  The Cedar evaluator library itself is
out of scope of the specification and is treated as a black box.
-/

namespace Cedrus

/-! ### Association-list model of Rust HashMap / DashMap -/

def alookup {κ α : Type} [DecidableEq κ] : List (κ × α) → κ → Option α
  | [], _ => none
  | (k, v) :: rest, key => if k = key then some v else alookup rest key

def containsKey {κ α : Type} [DecidableEq κ] (m : List (κ × α)) (k : κ) : Bool :=
  (alookup m k).isSome

/-- removal of every pair with the given key (HashMap::remove). -/
def eraseKey {κ α : Type} [DecidableEq κ] : List (κ × α) → κ → List (κ × α)
  | [], _ => []
  | p :: rest, k => if p.1 = k then eraseKey rest k else p :: eraseKey rest k

/-- HashMap::insert (replace semantics, map-extensional model). -/
def ainsert {κ α : Type} [DecidableEq κ] (m : List (κ × α)) (k : κ) (v : α) :
    List (κ × α) :=
  (k, v) :: eraseKey m k

/-- HashMap::remove. -/
def aremove {κ α : Type} [DecidableEq κ] (m : List (κ × α)) (k : κ) : List (κ × α) :=
  eraseKey m k

theorem alookup_ainsert_self {κ α : Type} [DecidableEq κ] (m : List (κ × α)) (k : κ) (v : α) :
    alookup (ainsert m k v) k = some v := by
  simp [ainsert, alookup]

theorem alookup_eraseKey_ne {κ α : Type} [DecidableEq κ] {k k' : κ} (h : k ≠ k') :
    ∀ m : List (κ × α), alookup (eraseKey m k) k' = alookup m k'
  | [] => rfl
  | p :: rest => by
    by_cases hp : p.1 = k
    · have hne : ¬ p.1 = k' := by rw [hp]; exact h
      rw [eraseKey, if_pos hp, alookup, if_neg hne]
      exact alookup_eraseKey_ne h rest
    · rw [eraseKey, if_neg hp, alookup, alookup]
      by_cases hp' : p.1 = k'
      · rw [if_pos hp', if_pos hp']
      · rw [if_neg hp', if_neg hp']
        exact alookup_eraseKey_ne h rest

theorem alookup_ainsert_ne {κ α : Type} [DecidableEq κ] (m : List (κ × α)) (k k' : κ) (v : α)
    (h : k ≠ k') : alookup (ainsert m k v) k' = alookup m k' := by
  rw [ainsert, alookup, if_neg h]
  exact alookup_eraseKey_ne h m

theorem alookup_some_mem {κ α : Type} [DecidableEq κ] {m : List (κ × α)} {k : κ} {v : α}
    (h : alookup m k = some v) : (k, v) ∈ m := by
  induction m with
  | nil => simp [alookup] at h
  | cons p rest ih =>
    obtain ⟨a, b⟩ := p
    rw [alookup] at h
    by_cases hp : a = k
    · rw [if_pos hp, Option.some.injEq] at h
      rw [hp, h]
      exact List.mem_cons_self _ _
    · simp only [hp, if_false] at h
      exact List.mem_cons_of_mem _ (ih h)

theorem alookup_eq_none_of_forall {κ α : Type} [DecidableEq κ] {m : List (κ × α)} {k : κ}
    (h : ∀ p ∈ m, p.1 ≠ k) : alookup m k = none := by
  induction m with
  | nil => rfl
  | cons p rest ih =>
    rw [alookup]
    have hp := h p (by simp)
    simp [hp]
    exact ih (fun q hq => h q (by simp [hq]))

/-! ### Identifiers and the entity data model (cedrus-cedar/src/lib.rs) -/

/-- model of UUID identifiers; only equality and rendering to a string matter. -/
abbrev Uuid := Nat

/-- Uuid::nil(), the administrative meta-project ("nil project"). -/
def uuidNil : Uuid := 0

/-- struct EntityUid \x7b type: String, id: String \x7d. -/
structure EntityUid where
  type : String
  id : String
deriving DecidableEq, Repr

/-- impl ToString for EntityUid: "type::id". -/
def EntityUid.render (u : EntityUid) : String :=
  u.type ++ "::" ++ u.id

/-- struct ExtensionFn \x7b fn: String, arg: String \x7d. -/
structure ExtensionFn where
  fn : String
  arg : String
deriving DecidableEq, Repr

/-- struct EntityUidEscape \x7b entity: EntityUid \x7d (serde renames the field to "__entity"). -/
structure EntityUidEscape where
  entity : EntityUid
deriving DecidableEq, Repr

/-- struct ExtensionFnEscape \x7b extn: ExtensionFn \x7d (serde renames the field to "__extn"). -/
structure ExtensionFnEscape where
  extn : ExtensionFn
deriving DecidableEq, Repr

/-- model of serde_json values; objects keep a field list (HashMap iteration order is
irrelevant to the claims proved here because encoders are deterministic in the model). -/
inductive Json where
  | null
  | str (s : String)
  | int (n : Int)
  | bool (b : Bool)
  | arr (elems : List Json)
  | obj (fields : List (String × Json))
deriving Repr

/-- enum entity::EntityAttr, a serde(untagged) enum with variants in this declaration
order: String, Number, Boolean, Set, Record, EntityUid, Function, EntityUidEscape,
FunctionEscape. -/
inductive EntityAttr where
  | String (s : String)
  | Number (n : Int)
  | Boolean (b : Bool)
  | Set (elems : List EntityAttr)
  | Record (items : List (String × EntityAttr))
  | EntityUid (e : EntityUid)
  | Function (f : ExtensionFn)
  | EntityUidEscape (e : EntityUidEscape)
  | FunctionEscape (f : ExtensionFnEscape)
deriving Repr

/-- serde Serialize for EntityUid: a two-field object, fields in declaration order. -/
def encodeUid (u : EntityUid) : Json :=
  .obj [("type", .str u.type), ("id", .str u.id)]

/-- serde Serialize for ExtensionFn. -/
def encodeFn (f : ExtensionFn) : Json :=
  .obj [("fn", .str f.fn), ("arg", .str f.arg)]

mutual

/-- serde Serialize for the untagged enum EntityAttr: each variant serializes its
payload directly. -/
def encodeAttr : EntityAttr → Json
  | .String s => .str s
  | .Number n => .int n
  | .Boolean b => .bool b
  | .Set xs => .arr (encodeAttrList xs)
  | .Record fs => .obj (encodeAttrItems fs)
  | .EntityUid u => encodeUid u
  | .Function f => encodeFn f
  | .EntityUidEscape e => .obj [("__entity", encodeUid e.entity)]
  | .FunctionEscape f => .obj [("__extn", encodeFn f.extn)]

def encodeAttrList : List EntityAttr → List Json
  | [] => []
  | x :: xs => encodeAttr x :: encodeAttrList xs

def encodeAttrItems : List (String × EntityAttr) → List (String × Json)
  | [] => []
  | (k, v) :: xs => (k, encodeAttr v) :: encodeAttrItems xs

end

/-- serde Deserialize for the struct EntityUid applied to an object's fields:
both named fields must be present as strings; unknown fields are ignored. -/
def decodeUidFields (fs : List (String × Json)) : Option EntityUid :=
  match alookup fs "type", alookup fs "id" with
  | some (.str t), some (.str i) => some ⟨t, i⟩
  | _, _ => none

def decodeUidJson : Json → Option EntityUid
  | .obj fs => decodeUidFields fs
  | _ => none

/-- serde Deserialize for the struct ExtensionFn applied to an object's fields. -/
def decodeFnFields (fs : List (String × Json)) : Option ExtensionFn :=
  match alookup fs "fn", alookup fs "arg" with
  | some (.str f), some (.str a) => some ⟨f, a⟩
  | _, _ => none

def decodeFnJson : Json → Option ExtensionFn
  | .obj fs => decodeFnFields fs
  | _ => none

mutual

/-- serde Deserialize for the untagged enum EntityAttr: variants are tried in
declaration order and the first success wins.  On a JSON object the variants
String/Number/Boolean/Set fail immediately, so Record (a map whose values are
EntityAttr) is the first candidate, before EntityUid / Function and the two
escape wrappers. -/
def decodeAttr : Json → Option EntityAttr
  | .null => none
  | .str s => some (.String s)
  | .int n => some (.Number n)
  | .bool b => some (.Boolean b)
  | .arr xs =>
    match decodeAttrList xs with
    | some as_ => some (.Set as_)
    | none => none
  | .obj fs =>
    match decodeAttrItems fs with
    | some items => some (.Record items)
    | none =>
      match decodeUidFields fs with
      | some u => some (.EntityUid u)
      | none =>
        match decodeFnFields fs with
        | some f => some (.Function f)
        | none =>
          match alookup fs "__entity" with
          | some j =>
            match decodeUidJson j with
            | some u => some (.EntityUidEscape ⟨u⟩)
            | none => none
          | none =>
            match alookup fs "__extn" with
            | some j =>
              match decodeFnJson j with
              | some f => some (.FunctionEscape ⟨f⟩)
              | none => none
            | none => none

def decodeAttrList : List Json → Option (List EntityAttr)
  | [] => some []
  | x :: xs =>
    match decodeAttr x, decodeAttrList xs with
    | some a, some as_ => some (a :: as_)
    | _, _ => none

def decodeAttrItems : List (String × Json) → Option (List (String × EntityAttr))
  | [] => some []
  | (k, v) :: xs =>
    match decodeAttr v, decodeAttrItems xs with
    | some a, some as_ => some ((k, a) :: as_)
    | _, _ => none

end

theorem encode_bare_uid (u : EntityUid) :
    decodeAttr (encodeAttr (EntityAttr.EntityUid u)) =
      some (.Record [("type", .String u.type), ("id", .String u.id)]) := by
  simp [encodeAttr, encodeUid, decodeAttr, decodeAttrItems]

theorem encode_escape_uid (u : EntityUid) :
    decodeAttr (encodeAttr (EntityAttr.EntityUidEscape ⟨u⟩)) =
      some (.Record [("__entity",
        .Record [("type", .String u.type), ("id", .String u.id)])]) := by
  simp [encodeAttr, encodeUid, decodeAttr, decodeAttrItems]

/-- Claim C1, counterexample: the claim is false on the code.  JSON-decoding the
JSON encoding of the bare variant EntityAttr::EntityUid(("User","alice")) does not
yield the bare variant back: serde(untagged) tries the Record variant first and an
object of two string fields is a valid Record, so the round-trip returns
Record(\x7b"type": "User", "id": "alice"\x7d).  The escape variant likewise decodes
to a Record, not to EntityUidEscape. -/
theorem c1_counterexample :
    decodeAttr (encodeAttr (EntityAttr.EntityUid ⟨"User", "alice"⟩)) ≠
      some (EntityAttr.EntityUid ⟨"User", "alice"⟩) ∧
    decodeAttr (encodeAttr (EntityAttr.EntityUidEscape ⟨⟨"User", "alice"⟩⟩)) ≠
      some (EntityAttr.EntityUidEscape ⟨⟨"User", "alice"⟩⟩) := by
  constructor
  · intro h
    rw [encode_bare_uid] at h
    exact EntityAttr.noConfusion (Option.some.inj h)
  · intro h
    rw [encode_escape_uid] at h
    exact EntityAttr.noConfusion (Option.some.inj h)

/-- Claim C1 (amended): a JSON round-trip does not preserve the bare / escaped
entity variants of EntityAttr.  Because EntityAttr is a serde(untagged) enum whose
Record variant is declared before EntityUid and EntityUidEscape, decoding any JSON
object whose values decode as attributes produces the Record variant.  Hence for
every EntityUid u, decode(encode(EntityUid u)) is the Record of u's two string
fields, and decode(encode(EntityUidEscape u)) is a Record wrapping a "__entity"
Record; in particular decoding JSON of the form \x7b"__entity": ...\x7d produces the
Record variant, not the escape variant. -/
theorem c1_theorem (u : EntityUid) :
    decodeAttr (encodeAttr (EntityAttr.EntityUid u)) =
      some (.Record [("type", .String u.type), ("id", .String u.id)]) ∧
    decodeAttr (encodeAttr (EntityAttr.EntityUidEscape ⟨u⟩)) =
      some (.Record [("__entity",
        .Record [("type", .String u.type), ("id", .String u.id)])]) :=
  ⟨encode_bare_uid u, encode_escape_uid u⟩

/-! ### schema::TypeJson and its protobuf (binary) form — claim C7 -/

/-- enum schema::TypeJson: the closed set of schema types, each carrying an
optional required flag whose absence means true. -/
inductive TypeJson where
  | Long (required : Option Bool)
  | String (required : Option Bool)
  | Boolean (required : Option Bool)
  | Set (element : TypeJson) (required : Option Bool)
  | Entity (name : String) (required : Option Bool)
  | Record (attributes : List (String × TypeJson)) (required : Option Bool)
  | Extension (name : String) (required : Option Bool)
  | EntityOrCommon (name : String) (required : Option Bool)
deriving Repr

/-- proto::schema::TypeJson: the protobuf form stores required as a plain bool. -/
inductive ProtoTypeJson where
  | L (required : Bool)
  | S (required : Bool)
  | B (required : Bool)
  | Set (element : ProtoTypeJson) (required : Bool)
  | Entity (name : String) (required : Bool)
  | Record (attributes : List (String × ProtoTypeJson)) (required : Bool)
  | Ext (name : String) (required : Bool)
  | Eorc (name : String) (required : Bool)
deriving Repr

mutual

/-- impl Into(proto::schema::TypeJson) for TypeJson: required.unwrap_or(true). -/
def typeJsonToProto : TypeJson → ProtoTypeJson
  | .Long required => .L (required.getD true)
  | .String required => .S (required.getD true)
  | .Boolean required => .B (required.getD true)
  | .Set element required => .Set (typeJsonToProto element) (required.getD true)
  | .Entity name required => .Entity name (required.getD true)
  | .Record attributes required => .Record (typeJsonItemsToProto attributes) (required.getD true)
  | .Extension name required => .Ext name (required.getD true)
  | .EntityOrCommon name required => .Eorc name (required.getD true)

def typeJsonItemsToProto : List (String × TypeJson) → List (String × ProtoTypeJson)
  | [] => []
  | (k, v) :: rest => (k, typeJsonToProto v) :: typeJsonItemsToProto rest

end

/-- match required \x7b true => None, false => Some(false) \x7d, the decoding of the
protobuf required flag used by every From(proto::schema::TypeJson) arm. -/
def requiredFromProto : Bool → Option Bool
  | true => none
  | false => some false

mutual

/-- impl From(proto::schema::TypeJson) for TypeJson. -/
def typeJsonFromProto : ProtoTypeJson → TypeJson
  | .L required => .Long (requiredFromProto required)
  | .S required => .String (requiredFromProto required)
  | .B required => .Boolean (requiredFromProto required)
  | .Set element required => .Set (typeJsonFromProto element) (requiredFromProto required)
  | .Entity name required => .Entity name (requiredFromProto required)
  | .Record attributes required =>
    .Record (typeJsonItemsFromProto attributes) (requiredFromProto required)
  | .Ext name required => .Extension name (requiredFromProto required)
  | .Eorc name required => .EntityOrCommon name (requiredFromProto required)

def typeJsonItemsFromProto : List (String × ProtoTypeJson) → List (String × TypeJson)
  | [] => []
  | (k, v) :: rest => (k, typeJsonFromProto v) :: typeJsonItemsFromProto rest

end

/-- the (top-level) required field carried by every TypeJson variant. -/
def TypeJson.requiredOf : TypeJson → Option Bool
  | .Long required => required
  | .String required => required
  | .Boolean required => required
  | .Set _ required => required
  | .Entity _ required => required
  | .Record _ required => required
  | .Extension _ required => required
  | .EntityOrCommon _ required => required

/-- Claim C7: for every schema type value whose required field is absent (None),
converting it to the protobuf (binary) form and back reproduces the absence for
every TypeJson variant; the round-trip never coerces an absent required to false.
(Absence encodes as true — the default — and true decodes back to None.) -/
theorem c7_theorem (t : TypeJson) (h : t.requiredOf = none) :
    (typeJsonFromProto (typeJsonToProto t)).requiredOf = none := by
  cases t <;> simp [TypeJson.requiredOf] at h <;>
    simp [typeJsonToProto, typeJsonFromProto, TypeJson.requiredOf, h, requiredFromProto]

/-- Claim C7, witness at the concrete input TypeJson.Long None. -/
theorem c7_witness :
    (TypeJson.Long none).requiredOf = none ∧
      (typeJsonFromProto (typeJsonToProto (TypeJson.Long none))).requiredOf = none :=
  ⟨rfl, c7_theorem (TypeJson.Long none) rfl⟩

/-! ### DynamoDb namespace sentinel remapping — claim C9
(src/cedrus-core/src/db/dynamodb.rs, empty_namespace_to_default /
default_namespace_to_empty).  Schema is a newtype over HashMap(String, Namespace);
the HashMap is modelled extensionally as a function String → Option ν, polymorphic
in the namespace payload ν, which both functions copy verbatim. -/

/-- DEFAULT_ATT, the reserved sentinel namespace name. -/
def DEFAULT_ATT : String := "__DEFAULT__"

/-- HashMap::insert on the function model of a map. -/
def fInsert {ν : Type} (m : String → Option ν) (k : String) (v : ν) : String → Option ν :=
  fun x => if x = k then some v else m x

/-- HashMap::remove on the function model of a map. -/
def fRemove {ν : Type} (m : String → Option ν) (k : String) : String → Option ν :=
  fun x => if x = k then none else m x

/-- fn empty_namespace_to_default: if the schema maps "" then insert that entry
under the sentinel key (overwriting any existing sentinel entry) and remove "". -/
def empty_namespace_to_default {ν : Type} (s : String → Option ν) : String → Option ν :=
  match s "" with
  | some namespace_ => fRemove (fInsert s DEFAULT_ATT namespace_) ""
  | none => s

/-- fn default_namespace_to_empty: if the schema maps the sentinel then insert
that entry under "" (overwriting any existing "" entry) and remove the sentinel. -/
def default_namespace_to_empty {ν : Type} (s : String → Option ν) : String → Option ν :=
  match s DEFAULT_ATT with
  | some namespace_ => fRemove (fInsert s "" namespace_) DEFAULT_ATT
  | none => s

theorem e2d_of_none {ν : Type} {s : String → Option ν} (hs : s "" = none) :
    empty_namespace_to_default s = s := by
  rw [empty_namespace_to_default, hs]

theorem e2d_of_some {ν : Type} {s : String → Option ν} {ns : ν} (hs : s "" = some ns) :
    empty_namespace_to_default s = fRemove (fInsert s DEFAULT_ATT ns) "" := by
  rw [empty_namespace_to_default, hs]

theorem d2e_of_none {ν : Type} {s : String → Option ν} (hs : s DEFAULT_ATT = none) :
    default_namespace_to_empty s = s := by
  rw [default_namespace_to_empty, hs]

theorem d2e_of_some {ν : Type} {s : String → Option ν} {ns : ν}
    (hs : s DEFAULT_ATT = some ns) :
    default_namespace_to_empty s = fRemove (fInsert s "" ns) DEFAULT_ATT := by
  rw [default_namespace_to_empty, hs]

/-- Claim C9, counterexample: the conversion is not lossless for every Schema.
For the schema whose only namespace is literally named "__DEFAULT__" (and which
has no empty-string namespace), empty_namespace_to_default is the identity, and
default_namespace_to_empty then moves the sentinel entry to the empty key: the
round-trip loses the "__DEFAULT__" entry. -/
theorem c9_counterexample :
    default_namespace_to_empty (empty_namespace_to_default
        (fun k => if k = DEFAULT_ATT then some () else none)) DEFAULT_ATT ≠
      (fun k => if k = DEFAULT_ATT then some () else none) DEFAULT_ATT := by
  have he : empty_namespace_to_default (fun k => if k = DEFAULT_ATT then some () else none) =
      (fun k => if k = DEFAULT_ATT then some () else none) :=
    e2d_of_none (by simp [DEFAULT_ATT])
  rw [he, @d2e_of_some Unit (fun k => if k = DEFAULT_ATT then some () else none) () (by simp)]
  simp [fRemove]

/-- Claim C9 (amended): remapping the empty-string namespace to the reserved
sentinel "__DEFAULT__" for storage and back is lossless for every Schema that does
not itself contain the sentinel namespace key; a schema already using
"__DEFAULT__" as a namespace name is not restored (the entry is moved to "" and,
when an empty namespace is also present, it overwrites that one). -/
theorem c9_theorem {ν : Type} (s : String → Option ν) (h : s DEFAULT_ATT = none) :
    ∀ k, default_namespace_to_empty (empty_namespace_to_default s) k = s k := by
  intro k
  have hne : DEFAULT_ATT ≠ "" := by simp [DEFAULT_ATT]
  cases hs : s "" with
  | none =>
    rw [e2d_of_none hs, d2e_of_none h]
  | some ns =>
    rw [e2d_of_some hs]
    have hd : fRemove (fInsert s DEFAULT_ATT ns) "" DEFAULT_ATT = some ns := by
      simp [fRemove, fInsert, hne]
    rw [d2e_of_some hd]
    by_cases hk : k = DEFAULT_ATT
    · subst hk
      simp [fRemove, fInsert, h, hne]
    · by_cases hk' : k = ""
      · subst hk'
        simp [fRemove, fInsert, hne.symm, hs]
      · simp [fRemove, fInsert, hk, hk']

/-- Claim C9, witness: the amended round-trip at the schema mapping only "A" and
at the key "A". -/
theorem c9_witness :
    (fun k => if k = "A" then some () else none) DEFAULT_ATT = none ∧
      default_namespace_to_empty (empty_namespace_to_default
        (fun k => if k = "A" then some () else none)) "A" =
        (fun k => if k = "A" then some () else none) "A" :=
  ⟨by simp [DEFAULT_ATT], c9_theorem (fun k => if k = "A" then some () else none)
    (by simp [DEFAULT_ATT]) "A"⟩

/-! ### Cascade delete in the durable store and the cache — claim C6
(DynamoDb::project_remove in src/cedrus-core/src/db/dynamodb.rs and
ValKeyCache::project_del in src/cedrus-core/src/cache/valkey.rs).  Rows and cache
entries are modelled by their keys; DynamoDB begins_with and the valkey glob
"prefix*" are string-prefix tests, modelled on the character lists underlying
String. -/

/-- prefix test on character lists (DynamoDB begins_with, valkey "prefix*" glob). -/
def chPre : List Char → List Char → Bool
  | [], _ => true
  | _ :: _, [] => false
  | c :: cs, d :: ds => c == d && chPre cs ds

/-- s starts with pre. -/
def strHasPre (pre s : String) : Bool := chPre pre.data s.data

theorem chPre_append (a : List Char) :
    ∀ b s, chPre (a ++ b) s = true → chPre a s = true := by
  induction a with
  | nil => intro b s _; rfl
  | cons c cs ih =>
    intro b s h
    cases s with
    | nil => exact absurd h (by simp [chPre])
    | cons d ds =>
      rw [List.cons_append, chPre, Bool.and_eq_true] at h
      rw [chPre, Bool.and_eq_true]
      exact ⟨h.1, ih b ds h.2⟩

theorem strHasPre_of_parts {a b s : String} (h : strHasPre (a ++ b) s = true) :
    strHasPre a s = true := by
  rw [strHasPre, String.data_append] at h
  exact chPre_append a.data b.data s.data h

theorem chPre_self_append (a : List Char) : ∀ b, chPre a (a ++ b) = true := by
  induction a with
  | nil => intro b; rfl
  | cons c cs ih =>
    intro b
    rw [List.cons_append, chPre, Bool.and_eq_true]
    exact ⟨by simp, ih b⟩

theorem strHasPre_self_append (a b : String) : strHasPre a (a ++ b) = true := by
  rw [strHasPre, String.data_append]
  exact chPre_self_append a.data b.data

/-- one durable-store row, identified by its composite key (the payload does not
matter to the claim proved here). -/
structure DbRow where
  pk : String
  sk : String
deriving DecidableEq, Repr

abbrev DbState := List DbRow

def PROJECT_TYPE : String := "P"

/-- PROJECT_ENTITY_TYPE in core/project.rs: the entity type of the
project-as-entity written into the nil project. -/
def PROJECT_ENTITY_TYPE : String := "Cedrus::Project"

/-- "P#(uuid)", the partition key shared by every row of a project. -/
def pkOf (pid : Uuid) : String := PROJECT_TYPE ++ "#" ++ toString pid

/-- the sort key of the nil-project entity Cedrus::Project::(pid). -/
def nilProjectEntitySk (pid : Uuid) : String :=
  pkOf uuidNil ++ "#E#" ++ EntityUid.render ⟨PROJECT_ENTITY_TYPE, toString pid⟩

/-- DynamoDb::project_load: get_item with PK = SK = "P#(uuid)". -/
def db_project_load (db : DbState) (pid : Uuid) : Option DbRow :=
  db.find? (fun r => decide (r.pk = pkOf pid) && decide (r.sk = pkOf pid))

/-- DynamoDb::project_identity_source_load: get_item at SK = PK ++ "#IS". -/
def db_project_identity_source_load (db : DbState) (pid : Uuid) : Option DbRow :=
  db.find? (fun r => decide (r.pk = pkOf pid) && decide (r.sk = pkOf pid ++ "#IS"))

/-- DynamoDb::project_schema_load: get_item at SK = PK ++ "#S". -/
def db_project_schema_load (db : DbState) (pid : Uuid) : Option DbRow :=
  db.find? (fun r => decide (r.pk = pkOf pid) && decide (r.sk = pkOf pid ++ "#S"))

/-- DynamoDb::project_entities_load: query PK = "P#(uuid)" AND begins_with(SK, PK ++ "#E#"). -/
def db_project_entities_load (db : DbState) (pid : Uuid) : List DbRow :=
  db.filter (fun r => decide (r.pk = pkOf pid) && strHasPre (pkOf pid ++ "#E#") r.sk)

/-- DynamoDb::project_policies_load: query with SK prefix PK ++ "#P#". -/
def db_project_policies_load (db : DbState) (pid : Uuid) : List DbRow :=
  db.filter (fun r => decide (r.pk = pkOf pid) && strHasPre (pkOf pid ++ "#P#") r.sk)

/-- DynamoDb::project_templates_load: query with SK prefix PK ++ "#T#". -/
def db_project_templates_load (db : DbState) (pid : Uuid) : List DbRow :=
  db.filter (fun r => decide (r.pk = pkOf pid) && strHasPre (pkOf pid ++ "#T#") r.sk)

/-- DynamoDb::project_template_links_load: query with SK prefix PK ++ "#TL#". -/
def db_project_template_links_load (db : DbState) (pid : Uuid) : List DbRow :=
  db.filter (fun r => decide (r.pk = pkOf pid) && strHasPre (pkOf pid ++ "#TL#") r.sk)

/-- DynamoDb::project_remove: batch-delete (i) every row whose PK is "P#(uuid)",
(ii) every nil-project row whose SK begins with "P#(nil)#TL#(uuid)" (the
admin-role template-links targeting the project), and (iii) the nil-project
entity row "P#(nil)#E#Cedrus::Project::(uuid)". -/
def db_project_remove (db : DbState) (pid : Uuid) : DbState :=
  db.filter (fun r =>
    !(decide (r.pk = pkOf pid)) &&
    !(decide (r.pk = pkOf uuidNil) &&
      strHasPre (pkOf uuidNil ++ "#TL#" ++ toString pid) r.sk) &&
    !(decide (r.pk = pkOf uuidNil) && decide (r.sk = nilProjectEntitySk pid)))

/-- the distributed cache modelled as its key-value pairs. -/
abbrev CacheState := List (String × String)

/-- "cedrus:p:(pid):", the key prefix of every per-project collection entry. -/
def cacheP (pid : Uuid) : String := "cedrus:p:" ++ toString pid ++ ":"

/-- "cedrus:prj:(pid)", the project row key. -/
def cachePrjKey (pid : Uuid) : String := "cedrus:prj:" ++ toString pid

/-- the cache key of the nil-project entity Cedrus::Project::(pid). -/
def cacheNilProjectEntityKey (pid : Uuid) : String :=
  cacheP uuidNil ++ "e:" ++ EntityUid.render ⟨PROJECT_ENTITY_TYPE, toString pid⟩

/-- scan_match with a "prefix*" glob followed by mget. -/
def cache_scan (c : CacheState) (pre : String) : CacheState :=
  c.filter (fun kv => strHasPre pre kv.1)

/-- ValKeyCache::project_get. -/
def cache_project_get (c : CacheState) (pid : Uuid) : Option String :=
  alookup c (cachePrjKey pid)

/-- ValKeyCache::project_get_identity_source (key "cedrus:p:(pid):is"). -/
def cache_project_get_identity_source (c : CacheState) (pid : Uuid) : Option String :=
  alookup c (cacheP pid ++ "is")

/-- ValKeyCache::project_get_schema (key "cedrus:p:(pid):s"). -/
def cache_project_get_schema (c : CacheState) (pid : Uuid) : Option String :=
  alookup c (cacheP pid ++ "s")

/-- ValKeyCache::project_get_entities with an empty uid list: scan "cedrus:p:(pid):e:*". -/
def cache_project_get_entities (c : CacheState) (pid : Uuid) : CacheState :=
  cache_scan c (cacheP pid ++ "e:")

/-- ValKeyCache::project_get_policies: scan "cedrus:p:(pid):p:*". -/
def cache_project_get_policies (c : CacheState) (pid : Uuid) : CacheState :=
  cache_scan c (cacheP pid ++ "p:")

/-- ValKeyCache::project_get_templates: scan "cedrus:p:(pid):t:*". -/
def cache_project_get_templates (c : CacheState) (pid : Uuid) : CacheState :=
  cache_scan c (cacheP pid ++ "t:")

/-- ValKeyCache::project_get_template_links: scan "cedrus:p:(pid):tl:*". -/
def cache_project_get_template_links (c : CacheState) (pid : Uuid) : CacheState :=
  cache_scan c (cacheP pid ++ "tl:")

/-- ValKeyCache::project_del: delete every key matching "cedrus:p:(pid):*", the
project key "cedrus:prj:(pid)", the nil-project entity key of
Cedrus::Project::(pid), and every nil-project template-link key matching
"cedrus:p:(nil):tl:(pid)_*". -/
def cache_project_del (c : CacheState) (pid : Uuid) : CacheState :=
  c.filter (fun kv =>
    !(strHasPre (cacheP pid) kv.1) &&
    !(decide (kv.1 = cachePrjKey pid)) &&
    !(decide (kv.1 = cacheNilProjectEntityKey pid)) &&
    !(strHasPre (cacheP uuidNil ++ "tl:" ++ toString pid ++ "_") kv.1))

theorem mem_db_remove {db : DbState} {pid : Uuid} {r : DbRow}
    (h : r ∈ db_project_remove db pid) :
    ¬ r.pk = pkOf pid ∧
    ¬(r.pk = pkOf uuidNil ∧
      strHasPre (pkOf uuidNil ++ "#TL#" ++ toString pid) r.sk = true) ∧
    ¬(r.pk = pkOf uuidNil ∧ r.sk = nilProjectEntitySk pid) := by
  rw [db_project_remove, List.mem_filter] at h
  obtain ⟨-, h⟩ := h
  simp only [Bool.and_eq_true, Bool.not_eq_true', Bool.and_eq_false_iff,
    decide_eq_false_iff_not, decide_eq_true_eq] at h
  obtain ⟨⟨h1, h2⟩, h3⟩ := h
  refine ⟨h1, ?_, ?_⟩
  · intro ⟨ha, hb⟩
    rcases h2 with h2 | h2
    · exact absurd ha (by simpa using h2)
    · rw [h2] at hb
      exact Bool.false_ne_true hb
  · intro ⟨ha, hb⟩
    rcases h3 with h3 | h3
    · exact absurd ha (by simpa using h3)
    · exact absurd hb (by simpa using h3)

theorem mem_cache_del {c : CacheState} {pid : Uuid} {kv : String × String}
    (h : kv ∈ cache_project_del c pid) :
    strHasPre (cacheP pid) kv.1 = false ∧
    ¬ kv.1 = cachePrjKey pid ∧
    ¬ kv.1 = cacheNilProjectEntityKey pid ∧
    strHasPre (cacheP uuidNil ++ "tl:" ++ toString pid ++ "_") kv.1 = false := by
  rw [cache_project_del, List.mem_filter] at h
  obtain ⟨-, h⟩ := h
  simp only [Bool.and_eq_true, Bool.not_eq_true', decide_eq_false_iff_not] at h
  exact ⟨h.1.1.1, h.1.1.2, h.1.2, h.2⟩

/-- Claim C6: after project_remove(P) completes, every per-project collection
(identity source, schema, entities, policies, templates, template links) loads
empty for P — in the durable store (DynamoDb::project_remove) and in the cache
(ValKeyCache::project_del) — the project row itself is gone, the entity
Cedrus::Project::(P) no longer exists in the nil project, and no nil-project
template-link row whose new_id starts with "(P)_" remains. -/
theorem c6_theorem (db : DbState) (c : CacheState) (pid : Uuid) :
    db_project_load (db_project_remove db pid) pid = none ∧
    db_project_identity_source_load (db_project_remove db pid) pid = none ∧
    db_project_schema_load (db_project_remove db pid) pid = none ∧
    db_project_entities_load (db_project_remove db pid) pid = [] ∧
    db_project_policies_load (db_project_remove db pid) pid = [] ∧
    db_project_templates_load (db_project_remove db pid) pid = [] ∧
    db_project_template_links_load (db_project_remove db pid) pid = [] ∧
    (∀ r ∈ db_project_remove db pid,
      ¬(r.pk = pkOf uuidNil ∧ r.sk = nilProjectEntitySk pid)) ∧
    (∀ r ∈ db_project_remove db pid,
      ¬(r.pk = pkOf uuidNil ∧
        strHasPre (pkOf uuidNil ++ "#TL#" ++ toString pid ++ "_") r.sk = true)) ∧
    cache_project_get (cache_project_del c pid) pid = none ∧
    cache_project_get_identity_source (cache_project_del c pid) pid = none ∧
    cache_project_get_schema (cache_project_del c pid) pid = none ∧
    cache_project_get_entities (cache_project_del c pid) pid = [] ∧
    cache_project_get_policies (cache_project_del c pid) pid = [] ∧
    cache_project_get_templates (cache_project_del c pid) pid = [] ∧
    cache_project_get_template_links (cache_project_del c pid) pid = [] ∧
    (∀ kv ∈ cache_project_del c pid, ¬ kv.1 = cacheNilProjectEntityKey pid) ∧
    (∀ kv ∈ cache_project_del c pid,
      strHasPre (cacheP uuidNil ++ "tl:" ++ toString pid ++ "_") kv.1 = false) := by
  have hdbpk : ∀ r ∈ db_project_remove db pid, ¬ r.pk = pkOf pid :=
    fun r hr => (mem_db_remove hr).1
  refine ⟨?_, ?_, ?_, ?_, ?_, ?_, ?_, ?_, ?_, ?_, ?_, ?_, ?_, ?_, ?_, ?_, ?_, ?_⟩
  · rw [db_project_load, List.find?_eq_none]
    intro r hr
    simp only [Bool.and_eq_true, decide_eq_true_eq, not_and]
    intro hp
    exact absurd hp (hdbpk r hr)
  · rw [db_project_identity_source_load, List.find?_eq_none]
    intro r hr
    simp only [Bool.and_eq_true, decide_eq_true_eq, not_and]
    intro hp
    exact absurd hp (hdbpk r hr)
  · rw [db_project_schema_load, List.find?_eq_none]
    intro r hr
    simp only [Bool.and_eq_true, decide_eq_true_eq, not_and]
    intro hp
    exact absurd hp (hdbpk r hr)
  · rw [db_project_entities_load, List.filter_eq_nil_iff]
    intro r hr
    simp only [Bool.and_eq_true, decide_eq_true_eq, not_and]
    intro hp
    exact absurd hp (hdbpk r hr)
  · rw [db_project_policies_load, List.filter_eq_nil_iff]
    intro r hr
    simp only [Bool.and_eq_true, decide_eq_true_eq, not_and]
    intro hp
    exact absurd hp (hdbpk r hr)
  · rw [db_project_templates_load, List.filter_eq_nil_iff]
    intro r hr
    simp only [Bool.and_eq_true, decide_eq_true_eq, not_and]
    intro hp
    exact absurd hp (hdbpk r hr)
  · rw [db_project_template_links_load, List.filter_eq_nil_iff]
    intro r hr
    simp only [Bool.and_eq_true, decide_eq_true_eq, not_and]
    intro hp
    exact absurd hp (hdbpk r hr)
  · intro r hr
    exact (mem_db_remove hr).2.2
  · intro r hr
    intro ⟨ha, hb⟩
    exact (mem_db_remove hr).2.1 ⟨ha, strHasPre_of_parts hb⟩
  · rw [cache_project_get]
    apply alookup_eq_none_of_forall
    intro kv hkv
    exact (mem_cache_del hkv).2.1
  · rw [cache_project_get_identity_source]
    apply alookup_eq_none_of_forall
    intro kv hkv hk
    have h1 := (mem_cache_del hkv).1
    rw [hk, strHasPre_self_append] at h1
    exact Bool.noConfusion h1
  · rw [cache_project_get_schema]
    apply alookup_eq_none_of_forall
    intro kv hkv hk
    have h1 := (mem_cache_del hkv).1
    rw [hk, strHasPre_self_append] at h1
    exact Bool.noConfusion h1
  · rw [cache_project_get_entities, cache_scan, List.filter_eq_nil_iff]
    intro kv hkv hp
    have h1 := (mem_cache_del hkv).1
    rw [strHasPre_of_parts hp] at h1
    exact Bool.noConfusion h1
  · rw [cache_project_get_policies, cache_scan, List.filter_eq_nil_iff]
    intro kv hkv hp
    have h1 := (mem_cache_del hkv).1
    rw [strHasPre_of_parts hp] at h1
    exact Bool.noConfusion h1
  · rw [cache_project_get_templates, cache_scan, List.filter_eq_nil_iff]
    intro kv hkv hp
    have h1 := (mem_cache_del hkv).1
    rw [strHasPre_of_parts hp] at h1
    exact Bool.noConfusion h1
  · rw [cache_project_get_template_links, cache_scan, List.filter_eq_nil_iff]
    intro kv hkv hp
    have h1 := (mem_cache_del hkv).1
    rw [strHasPre_of_parts hp] at h1
    exact Bool.noConfusion h1
  · intro kv hkv
    exact (mem_cache_del hkv).2.2.1
  · intro kv hkv
    exact (mem_cache_del hkv).2.2.2

/-! ### The entity-closure collection of the decision engine — claim C4
(Cedrus::get_entity_parents / Cedrus::get_cedar_entities in
src/cedrus-core/src/core/cedrus.rs).  The per-project DashMap(EntityUid,
(Entity, cedar Entity)) becomes an association list; the compiled cedar entity
is represented by the source Entity itself (compilation is a black box that the
closure copies around).  The Rust recursion has no fuel; the embedding takes a
fuel argument and the specification below proves that fuel (index length + 2)
always suffices, which is the termination claim. -/

/-- struct Entity (uid, attrs, parents, tags); equality and hashing in Rust are
by uid only, which the claims here never rely on. -/
structure Entity where
  uid : EntityUid
  attrs : List (String × EntityAttr)
  parents : List EntityUid
  tags : List (String × EntityAttr)

/-- a per-project entity index: EntityUid → Entity. -/
abbrev EntityMap := List (EntityUid × Entity)

mutual

/-- Cedrus::get_entity_parents — look the uid up in the index; if absent return
silently; otherwise insert the entity into the accumulator and recurse into each
parent that is not yet accumulated. -/
def getEntityParentsF : Nat → EntityMap → EntityUid → EntityMap → Option EntityMap
  | 0, _, _, _ => none
  | fuel + 1, idx, uid, entities =>
    match alookup idx uid with
    | none => some entities
    | some e => goParentsF fuel idx e.parents (ainsert entities uid e)
termination_by fuel _ _ _ => (fuel, 0)

/-- the for-loop over parents inside get_entity_parents. -/
def goParentsF : Nat → EntityMap → List EntityUid → EntityMap → Option EntityMap
  | _, _, [], entities => some entities
  | fuel, idx, p :: ps, entities =>
    if containsKey entities p then goParentsF fuel idx ps entities
    else
      match getEntityParentsF fuel idx p entities with
      | none => none
      | some entities' => goParentsF fuel idx ps entities'
termination_by fuel _ ps _ => (fuel, ps.length + 1)

end

/-- Cedrus::get_cedar_entities — the loop over the starting uids, threading the
shared accumulator, with the fuel shown sufficient by c4_theorem. -/
def getCedarEntitiesAux : EntityMap → List EntityUid → EntityMap → Option EntityMap
  | _, [], acc => some acc
  | idx, u :: us, acc =>
    match getEntityParentsF (idx.length + 2) idx u acc with
    | none => none
    | some acc' => getCedarEntitiesAux idx us acc'

def get_cedar_entities (idx : EntityMap) (uids : List EntityUid) : Option EntityMap :=
  getCedarEntitiesAux idx uids []

/-! #### Reachability through parents, the specification-side notion -/

/-- a parent-path from u to v within the index: ws lists the successive hop
targets; every node on the path resolves in the index and every hop target
avoids A. -/
def avoidPath (idx : EntityMap) (A : EntityUid → Prop) :
    EntityUid → List EntityUid → EntityUid → Prop
  | u, [], v => u = v ∧ ∃ e, alookup idx u = some e
  | u, w :: ws, v =>
    (∃ e, alookup idx u = some e ∧ w ∈ e.parents) ∧ ¬ A w ∧ avoidPath idx A w ws v

def ReachAvoid (idx : EntityMap) (A : EntityUid → Prop) (u v : EntityUid) : Prop :=
  ∃ ws, avoidPath idx A u ws v

/-- v belongs to the transitive parent closure of u in the index (u itself
included when present in the index). -/
def Reach (idx : EntityMap) (u v : EntityUid) : Prop :=
  ReachAvoid idx (fun _ => False) u v

/-- the keys already accumulated, as an avoid set. -/
def Avoid (ent : EntityMap) : EntityUid → Prop :=
  fun k => containsKey ent k = true

theorem avoidPath_mono {idx : EntityMap} {A B : EntityUid → Prop} (hAB : ∀ x, A x → B x) :
    ∀ {ws : List EntityUid} {u v : EntityUid},
      avoidPath idx B u ws v → avoidPath idx A u ws v := by
  intro ws
  induction ws with
  | nil => intro u v h; exact h
  | cons w ws ih =>
    intro u v h
    obtain ⟨hhop, hw, hrest⟩ := h
    exact ⟨hhop, fun hA => hw (hAB w hA), ih hrest⟩

theorem ra_mono {idx : EntityMap} {A B : EntityUid → Prop} (hAB : ∀ x, A x → B x)
    {u v : EntityUid} (h : ReachAvoid idx B u v) : ReachAvoid idx A u v := by
  obtain ⟨ws, hws⟩ := h
  exact ⟨ws, avoidPath_mono hAB hws⟩

theorem ra_congr {idx : EntityMap} {A B : EntityUid → Prop} (hAB : ∀ x, A x ↔ B x)
    {u v : EntityUid} : ReachAvoid idx A u v ↔ ReachAvoid idx B u v :=
  ⟨ra_mono (fun x hx => (hAB x).mpr hx), ra_mono (fun x hx => (hAB x).mp hx)⟩

theorem avoidPath_append {idx : EntityMap} {A : EntityUid → Prop} :
    ∀ {ws1 : List EntityUid} {u v w : EntityUid},
      avoidPath idx A u ws1 v → ∀ {ws2}, avoidPath idx A v ws2 w →
        avoidPath idx A u (ws1 ++ ws2) w := by
  intro ws1
  induction ws1 with
  | nil =>
    intro u v w h ws2 h2
    obtain ⟨rfl, -⟩ := h
    exact h2
  | cons x ws ih =>
    intro u v w h ws2 h2
    obtain ⟨hhop, hx, hrest⟩ := h
    exact ⟨hhop, hx, ih hrest h2⟩

theorem ra_trans {idx : EntityMap} {A : EntityUid → Prop} {u v w : EntityUid}
    (h1 : ReachAvoid idx A u v) (h2 : ReachAvoid idx A v w) : ReachAvoid idx A u w := by
  obtain ⟨ws1, h1⟩ := h1
  obtain ⟨ws2, h2⟩ := h2
  exact ⟨ws1 ++ ws2, avoidPath_append h1 h2⟩

theorem ra_step_front {idx : EntityMap} {A : EntityUid → Prop} {u p v : EntityUid} {e : Entity}
    (hu : alookup idx u = some e) (hp : p ∈ e.parents) (hpA : ¬ A p)
    (h : ReachAvoid idx A p v) : ReachAvoid idx A u v := by
  obtain ⟨ws, hws⟩ := h
  exact ⟨p :: ws, ⟨e, hu, hp⟩, hpA, hws⟩

theorem ra_self {idx : EntityMap} {A : EntityUid → Prop} {u : EntityUid} {e : Entity}
    (hu : alookup idx u = some e) : ReachAvoid idx A u u :=
  ⟨[], rfl, e, hu⟩

theorem ra_start_none {idx : EntityMap} {A : EntityUid → Prop} {u v : EntityUid}
    (hu : alookup idx u = none) : ¬ ReachAvoid idx A u v := by
  intro ⟨ws, hws⟩
  cases ws with
  | nil =>
    obtain ⟨-, e, he⟩ := hws
    rw [hu] at he
    exact Option.noConfusion he
  | cons w ws =>
    obtain ⟨⟨e, he, -⟩, -, -⟩ := hws
    rw [hu] at he
    exact Option.noConfusion he

/-- splitting a path against a larger avoid set B: either the whole path already
avoids B, or it first crosses B at some node w outside A, from which a strictly
shorter path continues under A. -/
theorem ra_split {idx : EntityMap} {A B : EntityUid → Prop} (hAB : ∀ x, A x → B x) :
    ∀ {ws : List EntityUid} {q v : EntityUid}, avoidPath idx A q ws v →
      ReachAvoid idx B q v ∨
        ∃ w ws', B w ∧ ¬ A w ∧ avoidPath idx A w ws' v ∧ ws'.length < ws.length := by
  intro ws
  induction ws with
  | nil =>
    intro q v h
    obtain ⟨rfl, e, he⟩ := h
    exact Or.inl (ra_self he)
  | cons w ws ih =>
    intro q v h
    obtain ⟨⟨e, he, hw⟩, hwA, hrest⟩ := h
    by_cases hwB : B w
    · exact Or.inr ⟨w, ws, hwB, hwA, hrest, Nat.lt_succ_self _⟩
    · rcases ih hrest with hleft | ⟨w', ws', hw'B, hw'A, hpath, hlen⟩
      · exact Or.inl (ra_step_front he hw hwB hleft)
      · exact Or.inr ⟨w', ws', hw'B, hw'A, hpath, Nat.lt_succ_of_lt hlen⟩

/-! #### Counting unvisited index keys, the fuel measure -/

/-- the number of distinct index keys not yet in the accumulator. -/
def unv (idx : EntityMap) (ent : EntityMap) : Nat :=
  ((idx.map Prod.fst).dedup.filter (fun k => !containsKey ent k)).length

theorem length_filter_implies {α : Type} {p q : α → Bool}
    (h : ∀ a, q a = true → p a = true) :
    ∀ l : List α, (l.filter q).length ≤ (l.filter p).length := by
  intro l
  induction l with
  | nil => exact Nat.le_refl 0
  | cons a l ih =>
    by_cases hq : q a = true
    · rw [List.filter_cons_of_pos hq, List.filter_cons_of_pos (h a hq)]
      exact Nat.succ_le_succ ih
    · rw [List.filter_cons_of_neg (by simpa using hq)]
      by_cases hp : p a = true
      · rw [List.filter_cons_of_pos hp]
        exact Nat.le_succ_of_le ih
      · rw [List.filter_cons_of_neg (by simpa using hp)]
        exact ih

theorem length_filter_strict {α : Type} {p q : α → Bool}
    (h : ∀ a, q a = true → p a = true) :
    ∀ {l : List α} {a : α}, a ∈ l → p a = true → q a = false →
      (l.filter q).length < (l.filter p).length := by
  intro l
  induction l with
  | nil => intro a ha; exact absurd ha (List.not_mem_nil a)
  | cons b l ih =>
    intro a ha hpa hqa
    rcases List.mem_cons.mp ha with rfl | ha
    · rw [List.filter_cons_of_neg (by simp [hqa]), List.filter_cons_of_pos hpa]
      exact Nat.lt_succ_of_le (length_filter_implies h l)
    · by_cases hq : q b = true
      · rw [List.filter_cons_of_pos hq, List.filter_cons_of_pos (h b hq)]
        exact Nat.succ_lt_succ (ih ha hpa hqa)
      · rw [List.filter_cons_of_neg (by simpa using hq)]
        by_cases hp : p b = true
        · rw [List.filter_cons_of_pos hp]
          exact Nat.lt_succ_of_lt (ih ha hpa hqa)
        · rw [List.filter_cons_of_neg (by simpa using hp)]
          exact ih ha hpa hqa

theorem unv_le_of_keys_sub {idx ent ent' : EntityMap}
    (h : ∀ k, containsKey ent k = true → containsKey ent' k = true) :
    unv idx ent' ≤ unv idx ent := by
  apply length_filter_implies
  intro a ha
  rw [Bool.not_eq_true'] at ha ⊢
  cases hc : containsKey ent a with
  | false => rfl
  | true =>
    rw [h a hc] at ha
    exact Bool.noConfusion ha

theorem unv_lt_of_insert {idx ent ent' : EntityMap} {uid : EntityUid} {e : Entity}
    (hidx : alookup idx uid = some e) (hent : containsKey ent uid = false)
    (hsub : ∀ k, containsKey ent k = true → containsKey ent' k = true)
    (hin : containsKey ent' uid = true) :
    unv idx ent' < unv idx ent := by
  apply length_filter_strict
  · intro a ha
    rw [Bool.not_eq_true'] at ha ⊢
    cases hc : containsKey ent a with
    | false => rfl
    | true =>
      rw [hsub a hc] at ha
      exact Bool.noConfusion ha
  · rw [List.mem_dedup]
    exact List.mem_map.mpr ⟨(uid, e), alookup_some_mem hidx, rfl⟩
  · simp [hent]
  · simp [hin]

theorem unv_le_length (idx ent : EntityMap) : unv idx ent ≤ idx.length := by
  calc ((idx.map Prod.fst).dedup.filter (fun k => !containsKey ent k)).length
      ≤ (idx.map Prod.fst).dedup.length := List.length_filter_le _ _
    _ ≤ (idx.map Prod.fst).length := (List.dedup_sublist _).length_le
    _ = idx.length := List.length_map _ _

/-! #### Small facts about the accumulator operations -/

theorem containsKey_ainsert_self {κ α : Type} [DecidableEq κ] (m : List (κ × α)) (k : κ)
    (v : α) : containsKey (ainsert m k v) k = true := by
  rw [containsKey, alookup_ainsert_self]
  rfl

theorem containsKey_ainsert_iff {κ α : Type} [DecidableEq κ] (m : List (κ × α)) (k k' : κ)
    (v : α) : containsKey (ainsert m k v) k' = true ↔ k' = k ∨ containsKey m k' = true := by
  by_cases hk : k = k'
  · subst hk
    simp [containsKey_ainsert_self]
  · rw [containsKey, alookup_ainsert_ne m k k' v hk, ← containsKey]
    constructor
    · exact Or.inr
    · intro hor
      rcases hor with hor | hor
      · exact absurd hor.symm hk
      · exact hor

theorem keys_eraseKey_sublist {κ α : Type} [DecidableEq κ] (k : κ) :
    ∀ m : List (κ × α), ((eraseKey m k).map Prod.fst).Sublist (m.map Prod.fst)
  | [] => List.Sublist.refl _
  | p :: rest => by
    by_cases hp : p.1 = k
    · rw [eraseKey, if_pos hp, List.map]
      exact (keys_eraseKey_sublist k rest).cons _
    · rw [eraseKey, if_neg hp, List.map, List.map]
      exact (keys_eraseKey_sublist k rest).cons₂ _

theorem not_mem_keys_eraseKey {κ α : Type} [DecidableEq κ] (k : κ) :
    ∀ m : List (κ × α), k ∉ (eraseKey m k).map Prod.fst
  | [] => List.not_mem_nil k
  | p :: rest => by
    by_cases hp : p.1 = k
    · rw [eraseKey, if_pos hp]
      exact not_mem_keys_eraseKey k rest
    · rw [eraseKey, if_neg hp, List.map]
      intro hmem
      rcases List.mem_cons.mp hmem with h | h
      · exact hp h.symm
      · exact not_mem_keys_eraseKey k rest h

theorem nodup_keys_ainsert {κ α : Type} [DecidableEq κ] {m : List (κ × α)} (k : κ) (v : α)
    (h : (m.map Prod.fst).Nodup) : ((ainsert m k v).map Prod.fst).Nodup := by
  rw [ainsert, List.map, List.nodup_cons]
  exact ⟨not_mem_keys_eraseKey k m, h.sublist (keys_eraseKey_sublist k m)⟩

theorem avoid_sub_ainsert {ent : EntityMap} {uid : EntityUid} {e : Entity} :
    ∀ x, Avoid ent x → Avoid (ainsert ent uid e) x := by
  intro x hx
  exact (containsKey_ainsert_iff ent uid x e).mpr (Or.inr hx)

/-- keys characterization of one get_entity_parents call, forward direction of the
composition: what the parents-loop over the freshly inserted entity produces is
exactly the reach-avoid set of the looked-up uid. -/
theorem get_keys_back {idx ent : EntityMap} {uid : EntityUid} {e : Entity}
    (hlook : alookup idx uid = some e) :
    ∀ (n : Nat) (ws : List EntityUid), ws.length ≤ n →
      ∀ k, avoidPath idx (Avoid ent) uid ws k →
        containsKey (ainsert ent uid e) k = true ∨
          ∃ p ∈ e.parents, containsKey (ainsert ent uid e) p = false ∧
            ReachAvoid idx (Avoid (ainsert ent uid e)) p k := by
  intro n
  induction n with
  | zero =>
    intro ws hlen k hpath
    rw [List.length_eq_zero.mp (Nat.le_zero.mp hlen)] at hpath
    obtain ⟨rfl, -⟩ := hpath
    exact Or.inl (containsKey_ainsert_self _ _ _)
  | succ n ih =>
    intro ws hlen k hpath
    cases ws with
    | nil =>
      obtain ⟨rfl, -⟩ := hpath
      exact Or.inl (containsKey_ainsert_self _ _ _)
    | cons p ws' =>
      obtain ⟨⟨e', he', hp⟩, hpA, hrest⟩ := hpath
      rw [hlook, Option.some.injEq] at he'
      subst he'
      by_cases hpu : p = uid
      · subst hpu
        exact ih ws' (Nat.le_of_succ_le_succ hlen) k hrest
      · have hpent' : containsKey (ainsert ent uid e) p = false := by
          cases hc : containsKey (ainsert ent uid e) p with
          | false => rfl
          | true =>
            rcases (containsKey_ainsert_iff ent uid p e).mp hc with h | h
            · exact absurd h hpu
            · exact absurd h hpA
        rcases ra_split avoid_sub_ainsert hrest with hleft |
          ⟨w, ws'', hwB, hwA, hpath'', hlen''⟩
        · exact Or.inr ⟨p, hp, hpent', hleft⟩
        · have hwu : w = uid := by
            rcases (containsKey_ainsert_iff ent uid w e).mp hwB with h | h
            · exact h
            · exact absurd h hwA
          subst hwu
          have hlen3 : ws''.length ≤ n :=
            Nat.le_of_lt (Nat.lt_of_lt_of_le hlen'' (Nat.le_of_succ_le_succ hlen))
          exact ih ws'' hlen3 k hpath''

/-- full keys characterization of one get_entity_parents call when the uid
resolves: accumulator keys afterwards = keys before ∪ reach-avoid of uid. -/
theorem get_keys_equiv {idx ent : EntityMap} {uid : EntityUid} {e : Entity}
    (hlook : alookup idx uid = some e) (k : EntityUid) :
    (containsKey (ainsert ent uid e) k = true ∨
      ∃ p ∈ e.parents, containsKey (ainsert ent uid e) p = false ∧
        ReachAvoid idx (Avoid (ainsert ent uid e)) p k) ↔
    (containsKey ent k = true ∨ ReachAvoid idx (Avoid ent) uid k) := by
  constructor
  · intro h
    rcases h with hk | ⟨p, hp, hpent', hra⟩
    · rcases (containsKey_ainsert_iff ent uid k e).mp hk with rfl | hk
      · exact Or.inr (ra_self hlook)
      · exact Or.inl hk
    · have hpne : ¬ Avoid ent p := by
        intro hA
        rw [avoid_sub_ainsert p hA] at hpent'
        exact Bool.noConfusion hpent'
      exact Or.inr (ra_step_front hlook hp hpne (ra_mono avoid_sub_ainsert hra))
  · intro h
    rcases h with hk | ⟨ws, hpath⟩
    · exact Or.inl ((containsKey_ainsert_iff ent uid k e).mpr (Or.inr hk))
    · exact get_keys_back hlook ws.length ws (Nat.le_refl _) k hpath

/-- composition of the parents-loop step: processing head p (not yet accumulated)
and then the rest against the grown accumulator covers exactly the guarded union
over p :: ps against the original accumulator. -/
theorem go_keys_compose {idx ent r1 : EntityMap} {p : EntityUid} {ps : List EntityUid}
    (hpent : containsKey ent p = false)
    (hk1 : ∀ k, containsKey r1 k = true ↔
      (containsKey ent k = true ∨ ReachAvoid idx (Avoid ent) p k)) (k : EntityUid) :
    (containsKey r1 k = true ∨
      ∃ q ∈ ps, containsKey r1 q = false ∧ ReachAvoid idx (Avoid r1) q k) ↔
    (containsKey ent k = true ∨
      ∃ q ∈ p :: ps, containsKey ent q = false ∧ ReachAvoid idx (Avoid ent) q k) := by
  have hsub : ∀ x, Avoid ent x → Avoid r1 x := by
    intro x hx
    exact (hk1 x).mpr (Or.inl hx)
  constructor
  · intro h
    rcases h with hk | ⟨q, hq, hqr1, hra⟩
    · rcases (hk1 k).mp hk with hk | hra
      · exact Or.inl hk
      · exact Or.inr ⟨p, List.mem_cons_self p ps, hpent, hra⟩
    · have hqent : containsKey ent q = false := by
        cases hc : containsKey ent q with
        | false => rfl
        | true =>
          rw [hsub q hc] at hqr1
          exact Bool.noConfusion hqr1
      exact Or.inr ⟨q, List.mem_cons_of_mem p hq, hqent, ra_mono hsub hra⟩
  · intro h
    rcases h with hk | ⟨q, hq, hqent, hra⟩
    · exact Or.inl (hsub k hk)
    · rcases List.mem_cons.mp hq with rfl | hq
      · exact Or.inl ((hk1 k).mpr (Or.inr hra))
      · cases hc : containsKey r1 q with
        | true =>
          have hpq : ReachAvoid idx (Avoid ent) p q := by
            rcases (hk1 q).mp hc with hcc | hra'
            · rw [hcc] at hqent
              exact absurd hqent Bool.noConfusion
            · exact hra'
          exact Or.inl ((hk1 k).mpr (Or.inr (ra_trans hpq hra)))
        | false =>
          obtain ⟨ws, hpath⟩ := hra
          rcases ra_split hsub hpath with hleft | ⟨w, ws'', hwB, hwA, hpath'', -⟩
          · exact Or.inr ⟨q, hq, hc, hleft⟩
          · have hpw : ReachAvoid idx (Avoid ent) p w := by
              rcases (hk1 w).mp hwB with hcc | hra'
              · exact absurd hcc hwA
              · exact hra'
            exact Or.inl ((hk1 k).mpr (Or.inr (ra_trans hpw ⟨ws'', hpath''⟩)))

/-- full specification of one get_entity_parents call at the given fuel: with
enough fuel it succeeds, its keys afterwards are the keys before plus the
reach-avoid set of the uid, values come from the accumulator or the index, and
key nodup (each entity contributed once) is preserved. -/
def GetSpec (f : Nat) : Prop :=
  ∀ (idx : EntityMap) (uid : EntityUid) (ent : EntityMap),
    ((containsKey ent uid = false ∧ unv idx ent + 1 ≤ f) ∨ unv idx ent + 2 ≤ f) →
    ∃ r, getEntityParentsF f idx uid ent = some r ∧
      (∀ k, containsKey r k = true ↔
        (containsKey ent k = true ∨ ReachAvoid idx (Avoid ent) uid k)) ∧
      (∀ k v, alookup r k = some v → alookup ent k = some v ∨ alookup idx k = some v) ∧
      ((ent.map Prod.fst).Nodup → (r.map Prod.fst).Nodup)

/-- full specification of the parents-loop at the given fuel. -/
def GoSpec (f : Nat) : Prop :=
  ∀ (idx : EntityMap) (ps : List EntityUid) (ent : EntityMap),
    unv idx ent + 1 ≤ f →
    ∃ r, goParentsF f idx ps ent = some r ∧
      (∀ k, containsKey r k = true ↔
        (containsKey ent k = true ∨
          ∃ p ∈ ps, containsKey ent p = false ∧ ReachAvoid idx (Avoid ent) p k)) ∧
      (∀ k v, alookup r k = some v → alookup ent k = some v ∨ alookup idx k = some v) ∧
      ((ent.map Prod.fst).Nodup → (r.map Prod.fst).Nodup)

theorem dfs_spec : ∀ f : Nat, GetSpec f ∧ GoSpec f := by
  intro f
  induction f using Nat.strong_induction_on with
  | _ f IH =>
    have hget : GetSpec f := by
      intro idx uid ent hf
      cases f with
      | zero =>
        exfalso
        rcases hf with ⟨-, h⟩ | h
        · exact Nat.not_succ_le_zero _ h
        · exact Nat.not_succ_le_zero _ h
      | succ g =>
        cases hlook : alookup idx uid with
        | none =>
          refine ⟨ent, by rw [getEntityParentsF, hlook], ?_, ?_, id⟩
          · intro k
            constructor
            · exact Or.inl
            · intro h
              rcases h with h | h
              · exact h
              · exact absurd h (ra_start_none hlook)
          · intro k v hv
            exact Or.inl hv
        | some e =>
          have hgo : GoSpec g := (IH g (Nat.lt_succ_self g)).2
          have hmono : ∀ k, containsKey ent k = true →
              containsKey (ainsert ent uid e) k = true :=
            fun k hk => (containsKey_ainsert_iff ent uid k e).mpr (Or.inr hk)
          have hfuel : unv idx (ainsert ent uid e) + 1 ≤ g := by
            rcases hf with ⟨hc, hle⟩ | hle
            · have hlt : unv idx (ainsert ent uid e) < unv idx ent :=
                unv_lt_of_insert hlook hc hmono (containsKey_ainsert_self ent uid e)
              omega
            · have hle2 : unv idx (ainsert ent uid e) ≤ unv idx ent :=
                unv_le_of_keys_sub hmono
              omega
          obtain ⟨r, hrun, hkeys, hvals, hnodup⟩ :=
            hgo idx e.parents (ainsert ent uid e) hfuel
          refine ⟨r, ?_, ?_, ?_, ?_⟩
          · rw [getEntityParentsF, hlook]
            exact hrun
          · intro k
            rw [hkeys k]
            exact get_keys_equiv hlook k
          · intro k v hv
            rcases hvals k v hv with hv' | hv'
            · by_cases hku : uid = k
              · subst hku
                rw [alookup_ainsert_self] at hv'
                injection hv' with hev
                subst hev
                exact Or.inr hlook
              · rw [alookup_ainsert_ne ent uid k e hku] at hv'
                exact Or.inl hv'
            · exact Or.inr hv'
          · intro hnd
            exact hnodup (nodup_keys_ainsert uid e hnd)
    have hgo : GoSpec f := by
      intro idx ps
      induction ps with
      | nil =>
        intro ent hf
        refine ⟨ent, by rw [goParentsF], ?_, ?_, id⟩
        · intro k
          constructor
          · exact Or.inl
          · intro h
            rcases h with h | ⟨p, hp, -⟩
            · exact h
            · exact absurd hp (List.not_mem_nil p)
        · intro k v hv
          exact Or.inl hv
      | cons p ps ihps =>
        intro ent hf
        cases hc : containsKey ent p with
        | true =>
          obtain ⟨r, hrun, hkeys, hvals, hnodup⟩ := ihps ent hf
          refine ⟨r, ?_, ?_, hvals, hnodup⟩
          · rw [goParentsF, if_pos hc]
            exact hrun
          · intro k
            rw [hkeys k]
            constructor
            · intro h
              rcases h with h | ⟨q, hq, hqent, hra⟩
              · exact Or.inl h
              · exact Or.inr ⟨q, List.mem_cons_of_mem p hq, hqent, hra⟩
            · intro h
              rcases h with h | ⟨q, hq, hqent, hra⟩
              · exact Or.inl h
              · rcases List.mem_cons.mp hq with rfl | hq
                · rw [hc] at hqent
                  exact absurd hqent Bool.noConfusion
                · exact Or.inr ⟨q, hq, hqent, hra⟩
        | false =>
          obtain ⟨r1, hrun1, hkeys1, hvals1, hnodup1⟩ :=
            hget idx p ent (Or.inl ⟨hc, hf⟩)
          have hsub : ∀ k, containsKey ent k = true → containsKey r1 k = true :=
            fun k hk => (hkeys1 k).mpr (Or.inl hk)
          have hf1 : unv idx r1 + 1 ≤ f :=
            Nat.le_trans (Nat.succ_le_succ (unv_le_of_keys_sub hsub)) hf
          obtain ⟨r, hrun, hkeys, hvals, hnodup⟩ := ihps r1 hf1
          refine ⟨r, ?_, ?_, ?_, ?_⟩
          · rw [goParentsF, if_neg (by simp [hc]), hrun1]
            exact hrun
          · intro k
            rw [hkeys k]
            exact go_keys_compose hc hkeys1 k
          · intro k v hv
            rcases hvals k v hv with hv' | hv'
            · exact hvals1 k v hv'
            · exact Or.inr hv'
          · intro hnd
            exact hnodup (hnodup1 hnd)
    exact ⟨hget, hgo⟩

/-- composition over the starting uids of get_cedar_entities (no visited guard
in that loop: get_entity_parents is called unconditionally). -/
theorem aux_keys_compose {idx acc r1 : EntityMap} {u : EntityUid} {us : List EntityUid}
    (hk1 : ∀ k, containsKey r1 k = true ↔
      (containsKey acc k = true ∨ ReachAvoid idx (Avoid acc) u k)) (k : EntityUid) :
    (containsKey r1 k = true ∨ ∃ q ∈ us, ReachAvoid idx (Avoid r1) q k) ↔
    (containsKey acc k = true ∨ ∃ q ∈ u :: us, ReachAvoid idx (Avoid acc) q k) := by
  have hsub : ∀ x, Avoid acc x → Avoid r1 x := by
    intro x hx
    exact (hk1 x).mpr (Or.inl hx)
  constructor
  · intro h
    rcases h with hk | ⟨q, hq, hra⟩
    · rcases (hk1 k).mp hk with hk | hra
      · exact Or.inl hk
      · exact Or.inr ⟨u, List.mem_cons_self u us, hra⟩
    · exact Or.inr ⟨q, List.mem_cons_of_mem u hq, ra_mono hsub hra⟩
  · intro h
    rcases h with hk | ⟨q, hq, hra⟩
    · exact Or.inl (hsub k hk)
    · rcases List.mem_cons.mp hq with rfl | hq
      · exact Or.inl ((hk1 k).mpr (Or.inr hra))
      · obtain ⟨ws, hpath⟩ := hra
        rcases ra_split hsub hpath with hleft | ⟨w, ws'', hwB, hwA, hpath'', -⟩
        · exact Or.inr ⟨q, hq, hleft⟩
        · have huw : ReachAvoid idx (Avoid acc) u w := by
            rcases (hk1 w).mp hwB with hcc | hra'
            · exact absurd hcc hwA
            · exact hra'
          exact Or.inl ((hk1 k).mpr (Or.inr (ra_trans huw ⟨ws'', hpath''⟩)))

theorem aux_spec (idx : EntityMap) :
    ∀ (uids : List EntityUid) (acc : EntityMap),
      ∃ r, getCedarEntitiesAux idx uids acc = some r ∧
        (∀ k, containsKey r k = true ↔
          (containsKey acc k = true ∨ ∃ u ∈ uids, ReachAvoid idx (Avoid acc) u k)) ∧
        (∀ k v, alookup r k = some v → alookup acc k = some v ∨ alookup idx k = some v) ∧
        ((acc.map Prod.fst).Nodup → (r.map Prod.fst).Nodup) := by
  intro uids
  induction uids with
  | nil =>
    intro acc
    refine ⟨acc, rfl, ?_, ?_, id⟩
    · intro k
      constructor
      · exact Or.inl
      · intro h
        rcases h with h | ⟨u, hu, -⟩
        · exact h
        · exact absurd hu (List.not_mem_nil u)
    · intro k v hv
      exact Or.inl hv
  | cons u us ih =>
    intro acc
    have hfuel : unv idx acc + 2 ≤ idx.length + 2 := by
      have := unv_le_length idx acc
      omega
    obtain ⟨r1, hrun1, hkeys1, hvals1, hnodup1⟩ :=
      (dfs_spec (idx.length + 2)).1 idx u acc (Or.inr hfuel)
    obtain ⟨r, hrun, hkeys, hvals, hnodup⟩ := ih r1
    refine ⟨r, ?_, ?_, ?_, ?_⟩
    · rw [getCedarEntitiesAux, hrun1]
      exact hrun
    · intro k
      rw [hkeys k]
      exact aux_keys_compose hkeys1 k
    · intro k v hv
      rcases hvals k v hv with hv' | hv'
      · exact hvals1 k v hv'
      · exact Or.inr hv'
    · intro hnd
      exact hnodup (hnodup1 hnd)

theorem avoid_nil_iff (k : EntityUid) : Avoid ([] : EntityMap) k ↔ False := by
  simp [Avoid, containsKey, alookup]

/-- Claim C4: for every per-node entity index (cycles in the parents relation
included) and every starting uid set, the entity-closure collection used by
is_authorized terminates — fuel linear in the index size suffices, so
get_cedar_entities returns some result — and that result contains exactly the
entities of the index reachable from the starting set by transitively following
parents; each reached uid carries the entity stored in the index and appears
exactly once (the key list has no duplicates); EntityUids absent from the index
are silently omitted (reachability only passes through index members). -/
theorem c4_theorem (idx : EntityMap) (uids : List EntityUid) :
    ∃ r, get_cedar_entities idx uids = some r ∧
      (∀ v, containsKey r v = true ↔ ∃ u ∈ uids, Reach idx u v) ∧
      (∀ k e, alookup r k = some e → alookup idx k = some e) ∧
      (r.map Prod.fst).Nodup := by
  obtain ⟨r, hrun, hkeys, hvals, hnodup⟩ := aux_spec idx uids []
  refine ⟨r, hrun, ?_, ?_, hnodup (by simp)⟩
  · intro v
    rw [hkeys v]
    constructor
    · intro h
      rcases h with h | ⟨u, hu, hra⟩
      · exact absurd h (by simp [containsKey, alookup])
      · exact ⟨u, hu, ra_mono (fun x hx => (avoid_nil_iff x).mpr hx) hra⟩
    · intro ⟨u, hu, hra⟩
      exact Or.inr ⟨u, hu, ra_mono (fun x hx => (avoid_nil_iff x).mp hx) hra⟩
  · intro k e he
    rcases hvals k e he with h | h
    · exact absurd h (by simp [alookup])
    · exact h

/-! ### Decision-engine node state and event application (struct Cedrus,
src/cedrus-core/src/core/cedrus.rs).  Compiled cedar values (schema, policy set,
JWT authorizer) are black boxes of the evaluator library, modelled by Unit; the
entity index keeps the whole Entity, standing for its (native, compiled) pair.
A `.unwrap()` panic is none. -/

abbrev PolicyId := String

/-- struct Project (core/project.rs); timestamps as unix milliseconds. -/
structure Project where
  id : Uuid
  name : String
  api_key : String
  owner : EntityUid
  roles : List (String × List String)
  created_at : Int
  updated_at : Int
deriving DecidableEq, Repr

/-- the five per-node materialized mappings plus the node id. -/
structure NodeState where
  id : Uuid
  apiKeys : List (String × EntityUid)
  projectAuthorizers : List (Uuid × Option Unit)
  projectCedarSchemas : List (Uuid × Option Unit)
  projectCedarEntities : List (Uuid × EntityMap)
  projectCedarPolicies : List (Uuid × Unit)

abbrev CacheErr := Unit

/-- the cache reads performed while applying events and reloading, given as the
responses the cache returns (Except.error = cache failure). -/
structure CacheModel where
  projectsGet : Except CacheErr (List Project)
  projectGet : Uuid → Except CacheErr (Option Project)
  projectGetIdentitySource : Uuid → Except CacheErr (Option Unit)
  projectGetSchema : Uuid → Except CacheErr (Option Unit)
  projectGetEntities : Uuid → List EntityUid → Except CacheErr (List Entity)
  projectGetPolicySet : Uuid → Except CacheErr Unit

/-- enum EventType (cedrus-core/src/lib.rs). -/
inductive EventType where
  | ReloadAll
  | ProjectCreate (pid : Uuid)
  | ProjectUpdate (pid : Uuid)
  | ProjectRemove (pid : Uuid) (api_key : String)
  | ProjectPutIdentitySource (pid : Uuid)
  | ProjectRemoveIdentitySource (pid : Uuid)
  | ProjectPutSchema (pid : Uuid)
  | ProjectRemoveSchema (pid : Uuid)
  | ProjectAddEntities (pid : Uuid) (uids : List EntityUid)
  | ProjectRemoveEntities (pid : Uuid) (uids : List EntityUid)
  | ProjectAddPolicies (pid : Uuid) (ids : List PolicyId)
  | ProjectRemovePolicies (pid : Uuid) (ids : List PolicyId)
  | ProjectAddTemplates (pid : Uuid) (ids : List PolicyId)
  | ProjectRemoveTemplates (pid : Uuid) (ids : List PolicyId)
  | ProjectAddTemplateLinks (pid : Uuid) (ids : List PolicyId)
  | ProjectRemoveTemplateLinks (pid : Uuid) (ids : List PolicyId)

/-- struct Event: sender node id plus the message. -/
structure Event where
  sender : Uuid
  msg : EventType

/-- one iteration of the loop in Cedrus::reload_all (per project listed by the
cache); compilation of schema / entities / policy set is black-box success. -/
def reloadProject (cache : CacheModel) (s : NodeState) (project : Project) :
    Except CacheErr NodeState :=
  let s := { s with apiKeys := ainsert s.apiKeys project.api_key project.owner }
  match cache.projectGetIdentitySource project.id with
  | .error e => .error e
  | .ok identitySource =>
    let s := { s with
      projectAuthorizers := ainsert s.projectAuthorizers project.id identitySource }
    match cache.projectGetSchema project.id with
    | .error e => .error e
    | .ok schema =>
      match cache.projectGetEntities project.id [] with
      | .error e => .error e
      | .ok entities =>
        let cedarEntities := entities.foldl (fun m e => ainsert m e.uid e) []
        match cache.projectGetPolicySet project.id with
        | .error e => .error e
        | .ok policySet =>
          .ok { s with
            projectCedarSchemas := ainsert s.projectCedarSchemas project.id schema,
            projectCedarEntities := ainsert s.projectCedarEntities project.id cedarEntities,
            projectCedarPolicies := ainsert s.projectCedarPolicies project.id policySet }

def reloadList (cache : CacheModel) : List Project → NodeState → Except CacheErr NodeState
  | [], s => .ok s
  | p :: ps, s =>
    match reloadProject cache s p with
    | .error e => .error e
    | .ok s' => reloadList cache ps s'

/-- Cedrus::reload_all combined with the caller's unwrap (the projects_get
unwrap inside, and update's unwrap of the returned Result): none is a panic. -/
def reload_all (cache : CacheModel) (st : NodeState) : Option NodeState :=
  match cache.projectsGet with
  | .error _ => none
  | .ok projects =>
    match reloadList cache projects st with
    | .error _ => none
    | .ok s => some s

/-- Cedrus::project_add_entities: `self.project_cedar_entities.get_mut(project_id)
.unwrap()` — none (panic) when the project has no entity-index entry; otherwise
merge the fetched entities into the index. -/
def project_add_entities (st : NodeState) (project_id : Uuid) (entities : List Entity) :
    Option NodeState :=
  match alookup st.projectCedarEntities project_id with
  | none => none
  | some m =>
    let merged := entities.foldl (fun acc e => ainsert acc e.uid e) m
    some { st with projectCedarEntities := ainsert st.projectCedarEntities project_id merged }

/-- Cedrus::project_remove_entities: `if let Some(..)` — tolerant of a missing
project. -/
def project_remove_entities (st : NodeState) (project_id : Uuid)
    (entity_uids : List EntityUid) : NodeState :=
  match alookup st.projectCedarEntities project_id with
  | none => st
  | some m =>
    let evicted := entity_uids.foldl (fun acc u => aremove acc u) m
    { st with projectCedarEntities := ainsert st.projectCedarEntities project_id evicted }

/-- Cedrus::project_set_policy_set combined with the caller's unwrap: refetch the
policy set from the cache (error → panic at the unwrap) and swap it in. -/
def project_set_policy_set (cache : CacheModel) (st : NodeState) (project_id : Uuid) :
    Option NodeState :=
  match cache.projectGetPolicySet project_id with
  | .error _ => none
  | .ok ps =>
    some { st with projectCedarPolicies := ainsert st.projectCedarPolicies project_id ps }

/-- Cedrus::update — the event dispatch; intern is true on the local publish
path and false on bus receipt; none models a panic of one of the unwraps. -/
def update (cache : CacheModel) (st : NodeState) (event : Event) (intern : Bool) :
    Option NodeState :=
  if intern = false ∧ event.sender = st.id then some st
  else
    match event.msg with
    | .ReloadAll => reload_all cache st
    | .ProjectCreate pid =>
      match cache.projectGet pid with
      | .error _ => none
      | .ok none => some st
      | .ok (some project) =>
        some { st with
          projectCedarSchemas := ainsert st.projectCedarSchemas pid none,
          projectCedarPolicies := ainsert st.projectCedarPolicies pid (),
          projectCedarEntities := ainsert st.projectCedarEntities pid [],
          apiKeys := ainsert st.apiKeys project.api_key project.owner }
    | .ProjectUpdate pid =>
      match cache.projectGet pid with
      | .error _ => none
      | .ok none => some st
      | .ok (some project) =>
        some { st with apiKeys := ainsert st.apiKeys project.api_key project.owner }
    | .ProjectRemove pid api_key =>
      some { st with
        apiKeys := aremove st.apiKeys api_key,
        projectAuthorizers := aremove st.projectAuthorizers pid,
        projectCedarSchemas := aremove st.projectCedarSchemas pid,
        projectCedarEntities := aremove st.projectCedarEntities pid,
        projectCedarPolicies := aremove st.projectCedarPolicies pid }
    | .ProjectPutIdentitySource pid =>
      match cache.projectGetIdentitySource pid with
      | .error _ => none
      | .ok identitySource =>
        some { st with projectAuthorizers := ainsert st.projectAuthorizers pid identitySource }
    | .ProjectRemoveIdentitySource pid =>
      some { st with projectAuthorizers := ainsert st.projectAuthorizers pid none }
    | .ProjectPutSchema pid =>
      match cache.projectGetSchema pid with
      | .error _ => none
      | .ok schema =>
        some { st with projectCedarSchemas := ainsert st.projectCedarSchemas pid schema }
    | .ProjectRemoveSchema pid =>
      some { st with projectCedarSchemas := ainsert st.projectCedarSchemas pid none }
    | .ProjectAddEntities pid uids =>
      match cache.projectGetEntities pid uids with
      | .error _ => none
      | .ok entities => project_add_entities st pid entities
    | .ProjectRemoveEntities pid uids =>
      some (project_remove_entities st pid uids)
    | .ProjectAddPolicies pid _ => project_set_policy_set cache st pid
    | .ProjectRemovePolicies pid _ => project_set_policy_set cache st pid
    | .ProjectAddTemplates pid _ => project_set_policy_set cache st pid
    | .ProjectRemoveTemplates pid _ => project_set_policy_set cache st pid
    | .ProjectAddTemplateLinks pid _ => project_set_policy_set cache st pid
    | .ProjectRemoveTemplateLinks pid _ => project_set_policy_set cache st pid

/-- a trivial cache whose reads all succeed with empty data. -/
def emptyCache : CacheModel :=
  { projectsGet := .ok [],
    projectGet := fun _ => .ok none,
    projectGetIdentitySource := fun _ => .ok none,
    projectGetSchema := fun _ => .ok none,
    projectGetEntities := fun _ _ => .ok [],
    projectGetPolicySet := fun _ => .ok () }

/-- a node (id 2) whose per-project mappings are all empty — e.g. every project
was already removed. -/
def emptyNode : NodeState :=
  { id := 2, apiKeys := [], projectAuthorizers := [], projectCedarSchemas := [],
    projectCedarEntities := [], projectCedarPolicies := [] }

/-- Claim C8: an Event received from the bus (intern = false) whose sender is
this node's id is not re-applied: update returns immediately and the node state
— all five per-node mappings — is unchanged. -/
theorem c8_theorem (cache : CacheModel) (st : NodeState) (event : Event)
    (h : event.sender = st.id) : update cache st event false = some st := by
  rw [update, if_pos ⟨rfl, h⟩]

/-- Claim C8, witness at a concrete self-sent event. -/
theorem c8_witness :
    (Event.mk 2 .ReloadAll).sender = emptyNode.id ∧
      update emptyCache emptyNode ⟨2, .ReloadAll⟩ false = some emptyNode :=
  ⟨rfl, c8_theorem emptyCache emptyNode ⟨2, .ReloadAll⟩ rfl⟩

/-- Claim C5: the spec asserts that events whose ProjectId was deleted
mid-stream are safely idempotent, but applying ProjectAddEntities for a deleted
project panics: update reaches project_add_entities, whose
`.get_mut(project_id).unwrap()` finds no entry (the removal dropped it) and
aborts — modelled as none.  Concrete failing input: node with no per-project
entries receives ProjectAddEntities for project 5 from another node (sender 1 ≠
node id 2); the cache read itself succeeds. -/
theorem c5_theorem :
    update emptyCache emptyNode ⟨1, .ProjectAddEntities 5 []⟩ false = none := rfl

/-- enum CedrusError (cedrus-core/src/lib.rs); wrapped library error payloads
dropped.  Note the variant set: there is no Conflict variant. -/
inductive CedrusError where
  | BadRequest
  | Unauthorized
  | Forbidden
  | NotFound
  | DatabaseError
  | CacheError
  | PubSubError
  | SchemaError
  | EntitiesError
  | PolicyFromJsonError
  | PolicyToJsonError
  | PolicySetError
  | ContextJsonError
deriving DecidableEq, Repr

/-- the evaluator's Response (decision, reason, errors) — black box here. -/
abbrev Response := Unit

/-- Cedrus::is_authorized.  The first unwrap is
`self.project_cedar_entities.get(project_id).unwrap()` inside
get_entity_parents, then `self.project_cedar_schemas.get(project_id).unwrap()`
and `self.project_cedar_policies.get(project_id).unwrap()`; none models a
panic.  Context conversion, Request::new and the evaluator are treated as
black-box successes of the cedar library. -/
def is_authorized (st : NodeState) (project_id : Uuid)
    (principal action resource : EntityUid) (context : Option Unit) :
    Option (Except CedrusError Response) :=
  match alookup st.projectCedarEntities project_id with
  | none => none
  | some idx =>
    match get_cedar_entities idx [principal, resource] with
    | none => none
    | some _cedar_entities =>
      match alookup st.projectCedarSchemas project_id with
      | none => none
      | some _cedar_schema =>
        match alookup st.projectCedarPolicies project_id with
        | none => none
        | some _cedar_policies => some (.ok ())

/-- Claim C10: for a project_id absent from the node's materialized per-project
mappings (never created or already removed), is_authorized returns neither a
Response nor an error value — it panics on the unwrap of the missing
entity-index entry (the first unwrap reached). -/
theorem c10_theorem (st : NodeState) (project_id : Uuid)
    (principal action resource : EntityUid) (context : Option Unit)
    (h1 : alookup st.projectCedarEntities project_id = none)
    (h2 : alookup st.projectCedarSchemas project_id = none)
    (h3 : alookup st.projectCedarPolicies project_id = none) :
    is_authorized st project_id principal action resource context = none := by
  rw [is_authorized, h1]

/-- Claim C10, witness: concrete empty node state, project 5. -/
theorem c10_witness :
    alookup emptyNode.projectCedarEntities 5 = none ∧
    alookup emptyNode.projectCedarSchemas 5 = none ∧
    alookup emptyNode.projectCedarPolicies 5 = none ∧
    is_authorized emptyNode 5 ⟨"U", "p"⟩ ⟨"A", "a"⟩ ⟨"R", "r"⟩ none = none :=
  ⟨rfl, rfl, rfl,
    c10_theorem emptyNode 5 ⟨"U", "p"⟩ ⟨"A", "a"⟩ ⟨"R", "r"⟩ none rfl rfl rfl⟩

/-! ### The admin short-circuit of is_allow — claim C2 -/

/-- the reserved admin group Cedrus::Group::"Admins" (field admin of Cedrus). -/
def adminUid : EntityUid := ⟨"Cedrus::Group", "Admins"⟩

/-- Cedrus::is_admin: look the principal up in the nil project's entity index
and test whether its DIRECT parents contain the admin group. -/
def is_admin (st : NodeState) (principal : EntityUid) : Bool :=
  match alookup st.projectCedarEntities uuidNil with
  | none => false
  | some entities =>
    match alookup entities principal with
    | none => false
    | some value => decide (adminUid ∈ value.parents)

/-- outcome trace of Cedrus::is_allow: shortCircuit = returned true from
is_admin without invoking the Cedar evaluator; panicked = one of the unwraps
fired; evaluated d = the black-box evaluator was invoked and its verdict is d. -/
inductive IsAllowOutcome where
  | shortCircuit
  | panicked
  | evaluated (allow : Bool)
deriving DecidableEq, Repr

/-- Cedrus::is_allow, instrumented by outcome; evalDecision stands for the
black-box Cedar authorizer verdict on the constructed request. -/
def is_allow_trace (st : NodeState) (evalDecision : Bool)
    (principal action resource : EntityUid) : IsAllowOutcome :=
  if is_admin st principal then .shortCircuit
  else
    match alookup st.projectCedarEntities uuidNil with
    | none => .panicked
    | some idx =>
      match get_cedar_entities idx [principal, resource] with
      | none => .panicked
      | some _ =>
        match alookup st.projectCedarPolicies uuidNil with
        | none => .panicked
        | some _ => .evaluated evalDecision

/-- one parent edge within an entity index. -/
def ParentStep (idx : EntityMap) (a b : EntityUid) : Prop :=
  ∃ e, alookup idx a = some e ∧ b ∈ e.parents

/-- the principal transitively belongs (via parents, to any depth ≥ 1) to the
reserved admin group. -/
def transitivelyInAdmins (idx : EntityMap) (principal : EntityUid) : Prop :=
  Relation.TransGen (ParentStep idx) principal adminUid

theorem is_admin_iff (st : NodeState) (principal : EntityUid) :
    is_admin st principal = true ↔
      ∃ idx value, alookup st.projectCedarEntities uuidNil = some idx ∧
        alookup idx principal = some value ∧ adminUid ∈ value.parents := by
  rw [is_admin]
  cases h1 : alookup st.projectCedarEntities uuidNil with
  | none => simp
  | some idx =>
    cases h2 : alookup idx principal with
    | none => simp [h2]
    | some value => simp [h2]

theorem is_allow_trace_sc_iff (st : NodeState) (d : Bool) (p a r : EntityUid) :
    is_allow_trace st d p a r = .shortCircuit ↔ is_admin st p = true := by
  rw [is_allow_trace]
  cases hadm : is_admin st p with
  | true => simp
  | false =>
    rw [if_neg Bool.false_ne_true]
    constructor
    · intro h
      exfalso
      cases h3 : alookup st.projectCedarEntities uuidNil with
      | none => simp [h3] at h
      | some idx =>
        cases h4 : get_cedar_entities idx [p, r] with
        | none => simp [h3, h4] at h
        | some ce =>
          cases h5 : alookup st.projectCedarPolicies uuidNil with
          | none => simp [h3, h4, h5] at h
          | some ps_ => simp [h3, h4, h5] at h
    · intro h
      exact absurd h Bool.false_ne_true

/-- Claim C2 (amended): the internal is_allow check returns Allow without
invoking the Cedar evaluator exactly when the principal's entity exists in the
nil project's entity index and its DIRECT parents contain the reserved group
Cedrus::Group::"Admins".  Transitive membership at depth two or more does not
short-circuit (the evaluator is invoked for it). -/
theorem c2_theorem (st : NodeState) (evalDecision : Bool)
    (principal action resource : EntityUid) :
    is_allow_trace st evalDecision principal action resource = .shortCircuit ↔
      ∃ idx value, alookup st.projectCedarEntities uuidNil = some idx ∧
        alookup idx principal = some value ∧ adminUid ∈ value.parents :=
  (is_allow_trace_sc_iff st evalDecision principal action resource).trans
    (is_admin_iff st principal)

def c2P : EntityUid := ⟨"Cedrus::User", "p"⟩
def c2G : EntityUid := ⟨"Cedrus::Group", "g"⟩

/-- nil-project index for the counterexample: p → g → Admins (depth-2 chain). -/
def c2Idx : EntityMap :=
  [(c2P, ⟨c2P, [], [c2G], []⟩),
   (c2G, ⟨c2G, [], [adminUid], []⟩),
   (adminUid, ⟨adminUid, [], [], []⟩)]

def c2State : NodeState :=
  { id := 3, apiKeys := [], projectAuthorizers := [], projectCedarSchemas := [],
    projectCedarEntities := [(uuidNil, c2Idx)],
    projectCedarPolicies := [(uuidNil, ())] }

/-- Claim C2, counterexample: principal Cedrus::User::"p" transitively belongs
to Cedrus::Group::"Admins" through the intermediate group Cedrus::Group::"g",
yet is_allow does not short-circuit for it — the Cedar evaluator is invoked.
The claimed "exactly when P transitively belongs (to any depth)" is false on the
code. -/
theorem c2_counterexample :
    transitivelyInAdmins c2Idx c2P ∧
      is_allow_trace c2State false c2P ⟨"Cedrus::Action", "getProjects"⟩
        ⟨"Cedrus::Project", "x"⟩ ≠ .shortCircuit := by
  constructor
  · have s1 : ParentStep c2Idx c2P c2G := ⟨⟨c2P, [], [c2G], []⟩, rfl, by simp⟩
    have s2 : ParentStep c2Idx c2G adminUid := ⟨⟨c2G, [], [adminUid], []⟩, rfl, by simp⟩
    exact Relation.TransGen.tail (Relation.TransGen.single s1) s2
  · intro h
    obtain ⟨r, hrun, -, -, -⟩ := aux_spec c2Idx [c2P, ⟨"Cedrus::Project", "x"⟩] []
    have heval : is_allow_trace c2State false c2P ⟨"Cedrus::Action", "getProjects"⟩
        ⟨"Cedrus::Project", "x"⟩ = .evaluated false := by
      have h1 : alookup c2State.projectCedarEntities uuidNil = some c2Idx := rfl
      have h5 : alookup c2State.projectCedarPolicies uuidNil = some () := rfl
      rw [is_allow_trace, if_neg (by decide)]
      simp [h1, get_cedar_entities, hrun, h5]
    rw [heval] at h
    exact IsAllowOutcome.noConfusion h

/-! ### Admin-controller project_update and optimistic concurrency — claim C3 -/

/-- the write-side state Cedrus::project_update touches: durable-store project
rows, cache project rows, the local node state (publish applies the event
locally first) and the events put on the bus. -/
structure ControllerState where
  dbProjects : List (Uuid × Project)
  cacheProjects : List (Uuid × Project)
  node : NodeState
  published : List Event

/-- Cedrus::publish: apply the event locally (intern = true), then put it on the
bus (publish failures are ignored); a panic inside the local apply is none. -/
def publish (cache : CacheModel) (cs : ControllerState) (selfId : Uuid)
    (msg : EventType) : Option ControllerState :=
  match update cache cs.node ⟨selfId, msg⟩ true with
  | none => none
  | some node' =>
    some { cs with node := node', published := cs.published ++ [⟨selfId, msg⟩] }

/-- Cedrus::project_update: load the stored project (NotFound when absent), fail
with BadRequest when the caller's updated_at differs from the stored one, merge
name / api_key, repair zero timestamps, and only when something changed write to
the durable store and cache and publish ProjectUpdate; now is the current
timestamp in millis; none models a panic inside the local event apply. -/
def project_update (cache : CacheModel) (cs : ControllerState) (selfId : Uuid)
    (project_id : Uuid) (project : Project) (now : Int) :
    Option (Except CedrusError Project × ControllerState) :=
  match alookup cs.dbProjects project_id with
  | none => some (.error .NotFound, cs)
  | some original =>
    if original.updated_at ≠ project.updated_at then
      some (.error .BadRequest, cs)
    else
      let s1 :=
        if original.name ≠ project.name then ({ original with name := project.name }, false)
        else (original, true)
      let s2 :=
        if s1.1.api_key ≠ project.api_key then
          ({ s1.1 with api_key := project.api_key }, false)
        else s1
      let s3 :=
        if s2.1.created_at = 0 then ({ s2.1 with created_at := now }, false)
        else s2
      let s4 :=
        if s3.1.updated_at = 0 then ({ s3.1 with updated_at := now }, false)
        else s3
      if s4.2 then some (.ok s4.1, cs)
      else
        let final := { s4.1 with updated_at := now }
        let cs' := { cs with
          dbProjects := ainsert cs.dbProjects final.id final,
          cacheProjects := ainsert cs.cacheProjects final.id final }
        match publish cache cs' selfId (.ProjectUpdate project_id) with
        | none => none
        | some cs'' => some (.ok final, cs'')

/-- Claim C3 (amended): for every existing project and every update request
whose updated_at differs from the stored project's updated_at, project_update
fails with the BadRequest error kind — enum CedrusError has no Conflict variant
— and writes nothing: durable store, cache, local node state and event bus are
returned exactly as they were. -/
theorem c3_theorem (cache : CacheModel) (cs : ControllerState) (selfId : Uuid)
    (project_id : Uuid) (project : Project) (now : Int) (original : Project)
    (hload : alookup cs.dbProjects project_id = some original)
    (hneq : original.updated_at ≠ project.updated_at) :
    project_update cache cs selfId project_id project now =
      some (.error CedrusError.BadRequest, cs) := by
  simp [project_update, hload, hneq]

def c3Project : Project :=
  { id := 7, name := "acme", api_key := "K", owner := ⟨"Cedrus::User", "o"⟩,
    roles := [], created_at := 50, updated_at := 100 }

def c3State : ControllerState :=
  { dbProjects := [(7, c3Project)], cacheProjects := [(7, c3Project)],
    node := emptyNode, published := [] }

/-- Claim C3, counterexample: the update of stored project 7 (updated_at 100)
with a request carrying updated_at 200 fails with CedrusError.BadRequest — not
with a Conflict error kind, which does not exist in enum CedrusError — leaving
the state unchanged. -/
theorem c3_counterexample :
    project_update emptyCache c3State 2 7 { c3Project with updated_at := 200 } 300 =
      some (.error CedrusError.BadRequest, c3State) := rfl

/-- Claim C3, witness of the amended theorem at the concrete stale update. -/
theorem c3_witness :
    alookup c3State.dbProjects 7 = some c3Project ∧
    c3Project.updated_at ≠ ({ c3Project with updated_at := 200 } : Project).updated_at ∧
    project_update emptyCache c3State 2 7 { c3Project with updated_at := 200 } 300 =
      some (.error CedrusError.BadRequest, c3State) :=
  ⟨rfl, by decide,
    c3_theorem emptyCache c3State 2 7 { c3Project with updated_at := 200 } 300 c3Project
      rfl (by decide)⟩

end Cedrus
